import Mathlib

/-
  Shallow embedding of the docked-application list manager
  (src/dock/docked_app_manager.go) and of the system-information probe
  (src/systeminfo/system_info.go) of the dde-daemon repository,
  together with proofs of the specification claims about them.

  External effects are made explicit:
  * the gio settings backend is a record holding the persisted string list
    plus counters of SetStrv and SettingsSync calls;
  * the legacy glib key-file (dock/apps.ini) and the surrounding file system
    are a World record;
  * signal emission accumulates (signal-name, app-id) pairs;
  * a Go nil-pointer dereference (calling a method of a nil gio.Settings)
    is modelled by returning none.
-/

namespace Dock

/-- Modelled from the spec: the repository helper isStrInSlice (dock list
utilities, not under src/) — exact string membership in a slice. -/
def isStrInSlice (v : String) : List String → Bool
  | [] => false
  | x :: xs => x == v || isStrInSlice v xs

/-- Modelled from the spec: the repository helper strSliceEqual (dock list
utilities, not under src/) — order-sensitive element-by-element equality
of two string slices. -/
def strSliceEqual : List String → List String → Bool
  | [], [] => true
  | a :: as, b :: bs => a == b && strSliceEqual as bs
  | _, _ => false

/-- Modelled from the spec: loop body of uniqStrSlice — the accumulator
keeps the elements already emitted; an element is appended only when it
is not yet present. -/
def uniqAux : List String → List String → List String
  | acc, [] => acc
  | acc, x :: xs =>
    if isStrInSlice x acc then uniqAux acc xs else uniqAux (acc ++ [x]) xs

/-- Modelled from the spec: the repository helper uniqStrSlice (dock list
utilities, not under src/) — deduplication keeping the first occurrence
of each string, preserving order. -/
def uniqStrSlice (xs : List String) : List String :=
  uniqAux [] xs

/-- Proof-side reformulation of the uniqStrSlice loop: the already-seen
elements are threaded as a parameter and the output is produced directly. -/
def uniqF (seen : List String) : List String → List String
  | [] => []
  | x :: xs =>
    if isStrInSlice x seen then uniqF seen xs else x :: uniqF (seen ++ [x]) xs


/-- The gio settings backend under the com.deepin.dde.dock schema: the
string list stored under the docked-apps key, plus counters of the
SetStrv calls (backend writes) and SettingsSync calls (synchronous
flushes) performed on it. -/
structure GioSettings where
  dockedApps : List String
  setStrvCount : Nat
  syncCount : Nat
deriving DecidableEq

/-- State of a DockedAppManager: the settings handle (none when
gio.NewSettings returned nil), the cached dockedAppList slice, and the
dbus signals emitted so far as (signal-name, app-id) pairs. -/
structure DockedAppManager where
  settings : Option GioSettings
  dockedAppList : List String
  emitted : List (String × String)
deriving DecidableEq

/-- DockedAppList returns the cached list of docked program ids. -/
def DockedAppList (m : DockedAppManager) : List String :=
  m.dockedAppList

/-- IsDocked reports whether the program id is in the cached docked list. -/
def IsDocked (m : DockedAppManager) (appId : String) : Bool :=
  isStrInSlice appId m.dockedAppList

/-- emitSignal appends one (name, id) dbus emission to the trace. -/
def emitSignal (m : DockedAppManager) (name : String) (id : String) :
    DockedAppManager :=
  { m with emitted := m.emitted ++ [(name, id)] }

/-- saveAppList stores apps under the docked-apps key via SetStrv and then
calls gio.SettingsSync. It dereferences m.settings unconditionally; when
the settings handle is nil the Go code would dereference a nil pointer,
modelled as none. -/
def saveAppList (m : DockedAppManager) (apps : List String) :
    Option DockedAppManager :=
  match m.settings with
  | none => none
  | some s =>
    let s1 : GioSettings :=
      { dockedApps := apps, setStrvCount := s.setStrvCount + 1,
        syncCount := s.syncCount + 1 }
    some { m with settings := some s1 }

/-- saveDockedAppList compares the dockManager's current docked list
(passed here as apps, standing for m.dockManager.getDockedAppList())
against the cached dockedAppList; only when they differ does it write the
backend and replace the cache. -/
def saveDockedAppList (m : DockedAppManager) (apps : List String) :
    Option DockedAppManager :=
  if ! strSliceEqual m.dockedAppList apps then
    (saveAppList m apps).map (fun m1 => { m1 with dockedAppList := apps })
  else
    some m

/-- An AppEntry as seen by dockAppEntry: only its appInfo matters, carried
here as the id that appInfo.GetId() would return (none models a nil
appInfo). -/
structure AppEntry where
  appInfo : Option String
deriving DecidableEq

/-- dockAppEntry: fails when entry.appInfo is nil; otherwise syncs the
persisted list against the dock state and emits Docked with the entry id.
The dockStateList argument stands for the dockManager's current docked
list read inside saveDockedAppList. -/
def dockAppEntry (m : DockedAppManager) (dockStateList : List String)
    (entry : AppEntry) : Option (DockedAppManager × Bool) :=
  match entry.appInfo with
  | none => some (m, false)
  | some appId =>
    (saveDockedAppList m dockStateList).map
      (fun m1 => (emitSignal m1 "Docked" appId, true))

/-- undockAppEntry: syncs the persisted list against the dock state and
emits Undocked with the given id; it always reports true. -/
def undockAppEntry (m : DockedAppManager) (dockStateList : List String)
    (appId : String) : Option (DockedAppManager × Bool) :=
  (saveDockedAppList m dockStateList).map
    (fun m1 => (emitSignal m1 "Undocked" appId, true))

/-- Modelled from the spec: the outcome of delegating a dock request to
the DockManager/DockState collaborator (its code is not under src/):
whether the live dock accepted the request, the entry it resolved or
synthesized, and its docked-id list after the attempt. -/
structure DockAttempt where
  accepted : Bool
  entry : AppEntry
  listAfter : List String
deriving DecidableEq

/-- RequestDock delegates to dockManager.requestDock. Modelled from the
spec: on acceptance by the live dock the manager entry point dockAppEntry
runs; on rejection nothing happens and false is returned. The id, title,
icon and cmd arguments are consumed by the collaborator, whose response
is the att argument. -/
def RequestDock (m : DockedAppManager) (att : DockAttempt)
    (id title icon cmd : String) : Option (DockedAppManager × Bool) :=
  if att.accepted then dockAppEntry m att.listAfter att.entry
  else some (m, false)

/-- Modelled from the spec: dockManager.undockEntryByAppId (not under
src/) — looks the id up among the currently docked entries; when absent
it fails with false; otherwise the entry is undocked (the live list loses
id) and undockAppEntry runs. -/
def undockEntryByAppId (m : DockedAppManager) (currentIds : List String)
    (id : String) : Option (DockedAppManager × Bool) :=
  if isStrInSlice id currentIds then
    undockAppEntry m (currentIds.filter (fun x => x != id)) id
  else
    some (m, false)

/-- RequestUndock delegates to dockManager.undockEntryByAppId; the
currentIds argument stands for the collaborator's live docked-id list. -/
def RequestUndock (m : DockedAppManager) (currentIds : List String)
    (id : String) : Option (DockedAppManager × Bool) :=
  undockEntryByAppId m currentIds id

/-- Deprecated alias of RequestDock. -/
def Dock (m : DockedAppManager) (att : DockAttempt)
    (id title icon cmd : String) : Option (DockedAppManager × Bool) :=
  RequestDock m att id title icon cmd

/-- Deprecated alias of RequestUndock. -/
def Undock (m : DockedAppManager) (currentIds : List String) (id : String) :
    Option (DockedAppManager × Bool) :=
  RequestUndock m currentIds id

/-- Misspelled duplicate of RequestDock, kept for compatibility. -/
def ReqeustDock (m : DockedAppManager) (att : DockAttempt)
    (id title icon cmd : String) : Option (DockedAppManager × Bool) :=
  RequestDock m att id title icon cmd

/-- The legacy key file dock/apps.ini as handleOldConfigFile reads it:
the __Config__/inited boolean (none when GetBoolean errors), the
__Config__/Position id list (none when GetStringList errors), the
per-id CmdLine/Icon/Name values returned by GetString, and whether
conf.ToData serializes without error. -/
structure LegacyConf where
  inited : Option Bool
  position : Option (List String)
  cmdLine : String → String
  icon : String → String
  name : String → String
  toDataOk : Bool

/-- The file system and application registry around the manager: the
legacy config file (none when LoadFromFile fails — absent or unreadable),
whether writing that file back succeeds, which ids NewAppInfo resolves to
an installed application, the scratch desktop files created so far as
(id, title, icon, exec) tuples, and a counter of Position reads from the
legacy store. -/
structure World where
  legacy : Option LegacyConf
  legacyWritable : Bool
  resolves : String → Bool
  scratch : List (String × String × String × String)
  posReads : Nat

/-- Loop body of handleOldConfigFile over the deduplicated legacy ids: an
id that NewAppInfo resolves is kept as-is; otherwise a scratch desktop
file is synthesized from the legacy CmdLine/Icon/Name metadata. -/
def scratchStep (conf : LegacyConf) (wa : World) (i : String) : World :=
  if wa.resolves i then wa
  else { wa with scratch := wa.scratch ++ [(i, conf.name i, conf.icon i, conf.cmdLine i)] }

/-- handleOldConfigFile: load the legacy key file (absence or read failure
is a logged no-op); return if the inited flag is already true; read the
Position id list (failure is a logged no-op); deduplicate; resolve or
synthesize a descriptor per id; save the list to the settings backend;
mark inited true and write the file back, preserving its mode (ToData or
write failure leaves the file as it was and is only logged). -/
def handleOldConfigFile (m : DockedAppManager) (w : World) :
    Option (DockedAppManager × World) :=
  match w.legacy with
  | none => some (m, w)
  | some conf =>
    if conf.inited = some true then some (m, w)
    else
      match conf.position with
      | none => some (m, { w with posReads := w.posReads + 1 })
      | some rawIds =>
        let w1 : World := { w with posReads := w.posReads + 1 }
        let ids := uniqStrSlice rawIds
        let w2 := List.foldl (scratchStep conf) w1 ids
        match saveAppList m ids with
        | none => none
        | some m1 =>
          if conf.toDataOk then
            if w2.legacyWritable then
              some (m1, { w2 with legacy := some { conf with inited := some true } })
            else some (m1, w2)
          else some (m1, w2)

/-- GetStrv reads the string list under the docked-apps key; none models
the nil dereference that reading through a nil settings handle causes. -/
def GetStrv (m : DockedAppManager) : Option (List String) :=
  m.settings.map (fun s => s.dockedApps)

/-- init: acquire the settings backend (a nil handle aborts initialization,
leaving an empty non-persisting manager), run the legacy migration, then
cache the deduplicated stored list and save it back. -/
def init (settingsOpt : Option GioSettings) (w : World) :
    Option (DockedAppManager × World) :=
  match settingsOpt with
  | none => some ({ settings := none, dockedAppList := [], emitted := [] }, w)
  | some s =>
    let m0 : DockedAppManager :=
      { settings := some s, dockedAppList := [], emitted := [] }
    match handleOldConfigFile m0 w with
    | none => none
    | some (m1, w1) =>
      match GetStrv m1 with
      | none => none
      | some stored =>
        let loaded := uniqStrSlice stored
        match saveAppList { m1 with dockedAppList := loaded } loaded with
        | none => none
        | some m2 => some (m2, w1)

/-- The sequence currently persisted in the settings backend (empty when
no backend was acquired). -/
def persistedList (m : DockedAppManager) : List String :=
  match m.settings with
  | none => []
  | some s => s.dockedApps

/-- Whether the legacy store currently holds a true inited flag. -/
def legacyFlagTrue (w : World) : Bool :=
  match w.legacy with
  | none => false
  | some c => c.inited == some true

/-- Closed form of the world after a full migration pass over ids:
Position was read once, scratch desktop files were synthesized, and the
legacy file was rewritten with inited true exactly when serialization and
the write-back both succeed. -/
def migrateWorld (conf : LegacyConf) (w : World) (ids : List String) : World :=
  let w2 := List.foldl (scratchStep conf) { w with posReads := w.posReads + 1 } ids
  if conf.toDataOk then
    if w2.legacyWritable then
      { w2 with legacy := some { conf with inited := some true } }
    else w2
  else w2

end Dock

namespace SystemInfo

/-- Contents of an input file as a probe sees it: the file may be absent
(os.Stat reports not-exist), present but unreadable (ioutil.ReadFile
errors), or readable with the given contents. -/
inductive FileState
  | absent
  | unreadable
  | content (s : String)
deriving DecidableEq

/-- DISTRIB_RELEASE, the key looked up in /etc/lsb-release. -/
def VERSION_KEY : String := "DISTRIB_RELEASE"

/-- model name, the key looked up in /proc/cpuinfo. -/
def PROC_CPU_KEY : String := "model name"

/-- MemTotal, the key looked up in /proc/meminfo. -/
def PROC_MEM_KEY : String := "MemTotal"

/-- strings.Contains for a non-empty substring: the line splits into at
least two parts around it exactly when it occurs. -/
def goContains (s sub : String) : Bool :=
  decide (1 < (s.splitOn sub).length)

/-- strings.Fields: split on whitespace, dropping empty fields. -/
def goFields (s : String) : List String :=
  (s.split Char.isWhitespace).filter (fun x => x != "")

/-- strconv.ParseUint with base 10 and 64 bits, with the error ignored as
the caller does: a well-formed digit string yields its value, one that
overflows 64 bits yields the maximal uint64 (ParseUint's cutoff result),
anything else yields 0. -/
def goParseUint (s : String) : Nat :=
  match s.toNat? with
  | some n => if n < 2 ^ 64 then n else 2 ^ 64 - 1
  | none => 0

/-- Loop of GetVersion over the lines of /etc/lsb-release: the first line
containing DISTRIB_RELEASE is split on equal signs; fewer than two parts
ends the loop with the empty accumulator, otherwise the second part is
returned. -/
def versionLoop : List String → String
  | [] => ""
  | line :: rest =>
    if goContains line VERSION_KEY then
      match line.splitOn "=" with
      | _ :: v :: _ => v
      | _ => ""
    else versionLoop rest

/-- GetVersion: empty when /etc/lsb-release is absent or unreadable,
otherwise the parsed DISTRIB_RELEASE value. -/
def GetVersion : FileState → String
  | .absent => ""
  | .unreadable => ""
  | .content contents => versionLoop (contents.splitOn "\n")

/-- Loop of GetCpuInfo over the lines of /proc/cpuinfo: counts the lines
containing model name, keeping the text after the first colon of the
first such line; a matching line with no colon breaks the loop. Returns
the accumulated (info, count). -/
def cpuLoop : List String → String → Nat → String × Nat
  | [], info, cnt => (info, cnt)
  | line :: rest, info, cnt =>
    if goContains line PROC_CPU_KEY then
      match line.splitOn ":" with
      | _ :: v :: _ =>
        cpuLoop rest (if info = "" then info ++ v else info) (cnt + 1)
      | _ => (info, cnt)
    else cpuLoop rest info cnt

/-- GetCpuInfo: the string Unknown when /proc/cpuinfo is absent, empty
when it exists but cannot be read, otherwise the model name joined with
the core count, whitespace-trimmed. -/
def GetCpuInfo : FileState → String
  | .absent => "Unknown"
  | .unreadable => ""
  | .content contents =>
    let r := cpuLoop (contents.splitOn "\n") "" 0
    (r.1 ++ " x " ++ toString r.2).trim

/-- Loop of GetMemoryCap over the lines of /proc/meminfo: the first line
containing MemTotal is split into fields; fewer than two fields breaks
the loop leaving 0, otherwise the second field is parsed as a uint64. -/
def memLoop : List String → Nat
  | [] => 0
  | line :: rest =>
    if goContains line PROC_MEM_KEY then
      match goFields line with
      | _ :: v :: _ => goParseUint v
      | _ => 0
    else memLoop rest

/-- GetMemoryCap: 0 when /proc/meminfo is absent or unreadable, otherwise
the parsed MemTotal in bytes, with uint64 wrap-around on the kilobyte
multiplication. -/
def GetMemoryCap : FileState → Nat
  | .absent => 0
  | .unreadable => 0
  | .content contents => (memLoop (contents.splitOn "\n") * 1024) % (2 ^ 64)

end SystemInfo

namespace Dock

theorem isStrInSlice_iff (v : String) (l : List String) :
    isStrInSlice v l = true ↔ v ∈ l := by
  induction l with
  | nil => simp [isStrInSlice]
  | cons x xs ih =>
    simp [isStrInSlice, ih, List.mem_cons]
    constructor
    · rintro (h | h)
      · exact Or.inl h.symm
      · exact Or.inr h
    · rintro (h | h)
      · exact Or.inl h.symm
      · exact Or.inr h

theorem isStrInSlice_false_iff (v : String) (l : List String) :
    isStrInSlice v l = false ↔ v ∉ l := by
  rw [← Bool.not_eq_true, not_iff_not]
  exact isStrInSlice_iff v l

theorem isStrInSlice_ne_true (v : String) (l : List String) (h : v ∉ l) :
    ¬ isStrInSlice v l = true :=
  fun hc => h ((isStrInSlice_iff v l).1 hc)

theorem strSliceEqual_iff : ∀ a b : List String, strSliceEqual a b = true ↔ a = b
  | [], [] => by simp [strSliceEqual]
  | [], _ :: _ => by simp [strSliceEqual]
  | _ :: _, [] => by simp [strSliceEqual]
  | a :: as, b :: bs => by
    simp [strSliceEqual, strSliceEqual_iff as bs, List.cons.injEq]

theorem uniqAux_eq_uniqF : ∀ (xs acc : List String), uniqAux acc xs = acc ++ uniqF acc xs
  | [], acc => by simp [uniqAux, uniqF]
  | x :: xs, acc => by
    by_cases hg : isStrInSlice x acc = true
    · rw [uniqAux, uniqF, if_pos hg, if_pos hg, uniqAux_eq_uniqF xs acc]
    · rw [uniqAux, uniqF, if_neg hg, if_neg hg, uniqAux_eq_uniqF xs (acc ++ [x])]
      simp

theorem uniqStrSlice_eq_uniqF (xs : List String) : uniqStrSlice xs = uniqF [] xs := by
  rw [uniqStrSlice, uniqAux_eq_uniqF]
  simp

theorem mem_uniqF (a : String) : ∀ (xs seen : List String),
    a ∈ uniqF seen xs ↔ (a ∈ xs ∧ a ∉ seen)
  | [], seen => by simp [uniqF]
  | x :: xs, seen => by
    by_cases hx : x ∈ seen
    · rw [uniqF, if_pos ((isStrInSlice_iff x seen).2 hx), mem_uniqF a xs seen,
        List.mem_cons]
      constructor
      · rintro ⟨h1, h2⟩
        exact ⟨Or.inr h1, h2⟩
      · rintro ⟨h1 | h1, h2⟩
        · exact absurd (h1 ▸ hx) h2
        · exact ⟨h1, h2⟩
    · rw [uniqF, if_neg (isStrInSlice_ne_true x seen hx)]
      simp only [List.mem_cons, mem_uniqF a xs (seen ++ [x]), List.mem_append,
        List.mem_singleton, List.mem_nil_iff, or_false]
      constructor
      · rintro (h | ⟨h1, h2⟩)
        · exact ⟨Or.inl h, by rw [h]; exact hx⟩
        · exact ⟨Or.inr h1, fun hc => h2 (Or.inl hc)⟩
      · rintro ⟨h1 | h1, h2⟩
        · exact Or.inl h1
        · by_cases hax : a = x
          · exact Or.inl hax
          · exact Or.inr ⟨h1, fun hc => hc.elim h2 hax⟩

theorem nodup_uniqF : ∀ (xs seen : List String), (uniqF seen xs).Nodup
  | [], _ => by simp [uniqF]
  | x :: xs, seen => by
    rw [uniqF]
    split
    · exact nodup_uniqF xs seen
    · refine List.nodup_cons.2 ⟨?_, nodup_uniqF xs (seen ++ [x])⟩
      intro hmem
      exact ((mem_uniqF x xs (seen ++ [x])).1 hmem).2 (by simp)

theorem sublist_uniqF : ∀ (xs seen : List String), (uniqF seen xs).Sublist xs
  | [], _ => by simp [uniqF]
  | x :: xs, seen => by
    rw [uniqF]
    split
    · exact (sublist_uniqF xs seen).cons x
    · exact (sublist_uniqF xs (seen ++ [x])).cons₂ x

theorem uniqF_congr_seen : ∀ (xs s t : List String),
    (∀ a, a ∈ s ↔ a ∈ t) → uniqF s xs = uniqF t xs
  | [], _, _, _ => rfl
  | x :: xs, s, t, h => by
    have hg : isStrInSlice x s = isStrInSlice x t := by
      by_cases hx : x ∈ s
      · rw [(isStrInSlice_iff x s).2 hx, (isStrInSlice_iff x t).2 ((h x).1 hx)]
      · rw [(isStrInSlice_false_iff x s).2 hx,
          (isStrInSlice_false_iff x t).2 (fun hc => hx ((h x).2 hc))]
    rw [uniqF, uniqF, hg]
    by_cases hx : isStrInSlice x t = true
    · rw [if_pos hx, if_pos hx, uniqF_congr_seen xs s t h]
    · rw [if_neg hx, if_neg hx,
        uniqF_congr_seen xs (s ++ [x]) (t ++ [x]) (by intro a; simp [h a])]

theorem uniqF_seen_snoc : ∀ (xs s : List String) (x : String),
    uniqF (s ++ [x]) xs = uniqF s (xs.filter (fun y => y != x))
  | [], _, _ => rfl
  | y :: ys, s, x => by
    by_cases hyx : y = x
    · subst hyx
      have hg : isStrInSlice y (s ++ [y]) = true :=
        (isStrInSlice_iff _ _).2 (by simp)
      rw [uniqF, if_pos hg, uniqF_seen_snoc ys s y]
      simp [List.filter]
    · have hfy : (y != x) = true := by simp [bne_iff_ne, hyx]
      have hmem : y ∈ s ++ [x] ↔ y ∈ s := by simp [hyx]
      rw [uniqF]
      have hfilter : (y :: ys).filter (fun z => z != x) =
          y :: ys.filter (fun z => z != x) := by simp [List.filter, hfy]
      rw [hfilter, uniqF]
      by_cases hys : y ∈ s
      · rw [if_pos ((isStrInSlice_iff _ _).2 (hmem.2 hys)),
          if_pos ((isStrInSlice_iff _ _).2 hys), uniqF_seen_snoc ys s x]
      · rw [if_neg (isStrInSlice_ne_true _ _ (fun hc => hys (hmem.1 hc))),
          if_neg (isStrInSlice_ne_true _ _ hys)]
        congr 1
        rw [uniqF_congr_seen ys ((s ++ [x]) ++ [y]) ((s ++ [y]) ++ [x])
          (by intro a; simp; tauto)]
        exact uniqF_seen_snoc ys (s ++ [y]) x

theorem uniqStrSlice_nodup (xs : List String) : (uniqStrSlice xs).Nodup := by
  rw [uniqStrSlice_eq_uniqF]; exact nodup_uniqF xs []

theorem mem_uniqStrSlice (a : String) (xs : List String) :
    a ∈ uniqStrSlice xs ↔ a ∈ xs := by
  rw [uniqStrSlice_eq_uniqF, mem_uniqF]
  simp

theorem uniqStrSlice_sublist (xs : List String) : (uniqStrSlice xs).Sublist xs := by
  rw [uniqStrSlice_eq_uniqF]; exact sublist_uniqF xs []

theorem uniqStrSlice_cons (x : String) (xs : List String) :
    uniqStrSlice (x :: xs) = x :: uniqStrSlice (xs.filter (fun y => y != x)) := by
  rw [uniqStrSlice_eq_uniqF, uniqStrSlice_eq_uniqF, uniqF,
    if_neg (isStrInSlice_ne_true _ _ (List.not_mem_nil x))]
  congr 1
  have h := uniqF_seen_snoc xs [] x
  simpa using h

theorem uniqStrSlice_count (a : String) (xs : List String) (h : a ∈ xs) :
    (uniqStrSlice xs).count a = 1 :=
  List.count_eq_one_of_mem (uniqStrSlice_nodup xs) ((mem_uniqStrSlice a xs).2 h)

theorem saveAppList_some (m : DockedAppManager) (s : GioSettings)
    (apps : List String) (hs : m.settings = some s) :
    saveAppList m apps =
      some { m with settings := some ⟨apps, s.setStrvCount + 1, s.syncCount + 1⟩ } := by
  simp [saveAppList, hs]

theorem saveDockedAppList_of_eq (m : DockedAppManager) (apps : List String)
    (h : m.dockedAppList = apps) : saveDockedAppList m apps = some m := by
  have hb : strSliceEqual m.dockedAppList apps = true := (strSliceEqual_iff _ _).2 h
  simp [saveDockedAppList, hb]

theorem saveDockedAppList_of_ne (m : DockedAppManager) (s : GioSettings)
    (apps : List String) (hs : m.settings = some s)
    (h : ¬ m.dockedAppList = apps) :
    saveDockedAppList m apps =
      some ⟨some ⟨apps, s.setStrvCount + 1, s.syncCount + 1⟩, apps, m.emitted⟩ := by
  obtain ⟨st, dl, ev⟩ := m
  replace hs : st = some s := hs
  have hb : strSliceEqual dl apps = false := by
    cases hq : strSliceEqual dl apps
    · rfl
    · exact absurd ((strSliceEqual_iff _ _).1 hq) h
  subst hs
  simp [saveDockedAppList, hb, saveAppList]

theorem saveDockedAppList_emitted (m m1 : DockedAppManager)
    (apps : List String) (h : saveDockedAppList m apps = some m1) :
    m1.emitted = m.emitted := by
  unfold saveDockedAppList at h
  by_cases hb : (! strSliceEqual m.dockedAppList apps) = true
  · rw [if_pos hb] at h
    cases hs : m.settings with
    | none => rw [saveAppList, hs] at h; exact absurd h (by simp)
    | some s =>
      rw [saveAppList_some m s apps hs] at h
      replace h :
          some { { m with settings := some ⟨apps, s.setStrvCount + 1, s.syncCount + 1⟩ } with
            dockedAppList := apps } = some m1 := h
      cases h
      rfl
  · rw [if_neg hb] at h
    cases h
    rfl

theorem handle_none (m : DockedAppManager) (w : World) (hl : w.legacy = none) :
    handleOldConfigFile m w = some (m, w) := by
  simp [handleOldConfigFile, hl]

theorem handle_flag (m : DockedAppManager) (w : World) (conf : LegacyConf)
    (hl : w.legacy = some conf) (hf : conf.inited = some true) :
    handleOldConfigFile m w = some (m, w) := by
  simp [handleOldConfigFile, hl, hf]

theorem handle_posErr (m : DockedAppManager) (w : World) (conf : LegacyConf)
    (hl : w.legacy = some conf) (hf : ¬ conf.inited = some true)
    (hp : conf.position = none) :
    handleOldConfigFile m w =
      some (m, { w with posReads := w.posReads + 1 }) := by
  simp [handleOldConfigFile, hl, hf, hp]

theorem scratchStep_preserve (conf : LegacyConf) (wa : World) (i : String) :
    (scratchStep conf wa i).legacy = wa.legacy ∧
    (scratchStep conf wa i).legacyWritable = wa.legacyWritable ∧
    (scratchStep conf wa i).posReads = wa.posReads := by
  unfold scratchStep
  split <;> exact ⟨rfl, rfl, rfl⟩

theorem scratchFold_preserve (conf : LegacyConf) : ∀ (ids : List String) (wa : World),
    (List.foldl (scratchStep conf) wa ids).legacy = wa.legacy ∧
    (List.foldl (scratchStep conf) wa ids).legacyWritable = wa.legacyWritable ∧
    (List.foldl (scratchStep conf) wa ids).posReads = wa.posReads
  | [], wa => ⟨rfl, rfl, rfl⟩
  | i :: ids, wa => by
    have h1 := scratchStep_preserve conf wa i
    have h2 := scratchFold_preserve conf ids (scratchStep conf wa i)
    rw [List.foldl_cons]
    exact ⟨h2.1.trans h1.1, h2.2.1.trans h1.2.1, h2.2.2.trans h1.2.2⟩

theorem handle_run (m : DockedAppManager) (w : World) (conf : LegacyConf)
    (raw : List String) (s : GioSettings)
    (hl : w.legacy = some conf) (hf : ¬ conf.inited = some true)
    (hp : conf.position = some raw) (hs : m.settings = some s) :
    handleOldConfigFile m w =
      some
        ({ m with settings := some ⟨uniqStrSlice raw, s.setStrvCount + 1, s.syncCount + 1⟩ },
          migrateWorld conf w (uniqStrSlice raw)) := by
  simp only [handleOldConfigFile, hl, if_neg hf, hp, saveAppList, hs, migrateWorld]
  split
  · split
    · rfl
    · rfl
  · rfl

theorem handle_run_none (m : DockedAppManager) (w : World) (conf : LegacyConf)
    (raw : List String)
    (hl : w.legacy = some conf) (hf : ¬ conf.inited = some true)
    (hp : conf.position = some raw) (hs : m.settings = none) :
    handleOldConfigFile m w = none := by
  simp only [handleOldConfigFile, hl, if_neg hf, hp, saveAppList, hs]

theorem migrateWorld_posReads (conf : LegacyConf) (w : World) (ids : List String) :
    (migrateWorld conf w ids).posReads = w.posReads + 1 := by
  simp only [migrateWorld]
  have h := scratchFold_preserve conf ids { w with posReads := w.posReads + 1 }
  split
  · split
    · exact h.2.2
    · exact h.2.2
  · exact h.2.2

theorem migrateWorld_legacy (conf : LegacyConf) (w : World) (ids : List String)
    (hl : w.legacy = some conf) :
    (migrateWorld conf w ids).legacy =
      (if conf.toDataOk = true ∧ w.legacyWritable = true
        then some { conf with inited := some true } else some conf) := by
  simp only [migrateWorld]
  have h := scratchFold_preserve conf ids { w with posReads := w.posReads + 1 }
  by_cases ht : conf.toDataOk = true
  · rw [if_pos ht]
    by_cases hw : w.legacyWritable = true
    · rw [if_pos (h.2.1.trans hw), if_pos ⟨ht, hw⟩]
    · rw [if_neg (fun hc => hw (h.2.1.symm.trans hc)),
        if_neg (fun hc => hw hc.2)]
      exact h.1.trans hl
  · rw [if_neg ht, if_neg (fun hc => ht hc.1)]
    exact h.1.trans hl

theorem handle_twice (m : DockedAppManager) (w : World)
    (m1 : DockedAppManager) (w1 : World)
    (h : handleOldConfigFile m w = some (m1, w1)) :
    ∃ m2 w2, handleOldConfigFile m1 w1 = some (m2, w2) ∧
      persistedList m2 = persistedList m1 := by
  cases hl : w.legacy with
  | none =>
    rw [handle_none m w hl] at h
    obtain ⟨rfl, rfl⟩ : m = m1 ∧ w = w1 := by simpa using h
    exact ⟨m, w, handle_none m w hl, rfl⟩
  | some conf =>
    by_cases hf : conf.inited = some true
    · rw [handle_flag m w conf hl hf] at h
      obtain ⟨rfl, rfl⟩ : m = m1 ∧ w = w1 := by simpa using h
      exact ⟨m, w, handle_flag m w conf hl hf, rfl⟩
    · cases hp : conf.position with
      | none =>
        rw [handle_posErr m w conf hl hf hp] at h
        obtain ⟨rfl, rfl⟩ : m = m1 ∧ { w with posReads := w.posReads + 1 } = w1 := by
          simpa using h
        exact ⟨m, _, handle_posErr m _ conf hl hf hp, rfl⟩
      | some raw =>
        cases hs : m.settings with
        | none =>
          rw [handle_run_none m w conf raw hl hf hp hs] at h
          exact absurd h (by simp)
        | some s =>
          rw [handle_run m w conf raw s hl hf hp hs] at h
          obtain ⟨rfl, rfl⟩ :
              ({ m with settings := some ⟨uniqStrSlice raw, s.setStrvCount + 1, s.syncCount + 1⟩ } = m1) ∧
              migrateWorld conf w (uniqStrSlice raw) = w1 := by simpa using h
          by_cases hc : conf.toDataOk = true ∧ w.legacyWritable = true
          · have hleg : (migrateWorld conf w (uniqStrSlice raw)).legacy =
                some { conf with inited := some true } := by
              rw [migrateWorld_legacy conf w _ hl, if_pos hc]
            exact ⟨_, _, handle_flag _ _ _ hleg rfl, rfl⟩
          · have hleg : (migrateWorld conf w (uniqStrSlice raw)).legacy = some conf := by
              rw [migrateWorld_legacy conf w _ hl, if_neg hc]
            rw [handle_run _ _ conf raw _ hleg hf hp rfl]
            exact ⟨_, _, rfl, rfl⟩

theorem init_legacyNone (s : GioSettings) (w : World) (hl : w.legacy = none) :
    init (some s) w =
      some
        (⟨some ⟨uniqStrSlice s.dockedApps, s.setStrvCount + 1, s.syncCount + 1⟩,
          uniqStrSlice s.dockedApps, []⟩, w) := by
  simp only [init]
  rw [handle_none _ _ hl]
  simp [GetStrv, saveAppList]

theorem init_sound (s : GioSettings) (w : World) (m' : DockedAppManager)
    (w' : World) (h : init (some s) w = some (m', w')) :
    m'.dockedAppList.Nodup ∧ persistedList m' = m'.dockedAppList := by
  simp only [init] at h
  cases hh : handleOldConfigFile { settings := some s, dockedAppList := [], emitted := [] } w with
  | none => rw [hh] at h; simp at h
  | some p =>
    obtain ⟨m1, w1⟩ := p
    rw [hh] at h
    dsimp only at h
    cases hg : GetStrv m1 with
    | none => rw [hg] at h; simp at h
    | some stored =>
      rw [hg] at h
      dsimp only at h
      have hset : ∃ s1, m1.settings = some s1 ∧ s1.dockedApps = stored := by
        cases hq : m1.settings with
        | none => rw [GetStrv, hq] at hg; simp at hg
        | some s1 =>
          rw [GetStrv, hq] at hg
          simp at hg
          exact ⟨s1, rfl, hg⟩
      obtain ⟨s1, hq, rfl⟩ := hset
      rw [saveAppList_some
        { settings := m1.settings, dockedAppList := uniqStrSlice s1.dockedApps,
          emitted := m1.emitted } s1 (uniqStrSlice s1.dockedApps) hq] at h
      dsimp only at h
      obtain ⟨rfl, rfl⟩ :
          ({ settings := some ⟨uniqStrSlice s1.dockedApps, s1.setStrvCount + 1, s1.syncCount + 1⟩,
             dockedAppList := uniqStrSlice s1.dockedApps,
             emitted := m1.emitted } : DockedAppManager) = m' ∧
          w1 = w' := by simpa using h
      exact ⟨uniqStrSlice_nodup s1.dockedApps, rfl⟩

/-- C1 (amended): per-request syncs obey the write-iff-different
discipline — when the dock state list equals the cached list,
saveDockedAppList changes nothing; when they differ it performs exactly
one backend write followed by one synchronous flush and replaces the
cache — but the startup save is unconditional: init always performs
exactly one write and flush of the deduplicated loaded list, without any
comparison. -/
theorem C1_write_iff_discipline :
    (∀ (m : DockedAppManager) (apps : List String),
      m.dockedAppList = apps → saveDockedAppList m apps = some m) ∧
    (∀ (m : DockedAppManager) (s : GioSettings) (apps : List String),
      m.settings = some s → ¬ m.dockedAppList = apps →
      saveDockedAppList m apps =
        some ⟨some ⟨apps, s.setStrvCount + 1, s.syncCount + 1⟩, apps, m.emitted⟩) ∧
    (∀ (s : GioSettings) (w : World), w.legacy = none →
      init (some s) w =
        some
          (⟨some ⟨uniqStrSlice s.dockedApps, s.setStrvCount + 1, s.syncCount + 1⟩,
            uniqStrSlice s.dockedApps, []⟩, w)) :=
  ⟨saveDockedAppList_of_eq, saveDockedAppList_of_ne, init_legacyNone⟩

/-- Witness for C1: a request sync with equal lists leaves the state and
counters untouched; one with differing lists writes and flushes exactly
once; a startup on a clean store still writes once. -/
theorem C1_write_iff_discipline_witness :
    saveDockedAppList ⟨some ⟨["a"], 0, 0⟩, ["a"], []⟩ ["a"] =
      some ⟨some ⟨["a"], 0, 0⟩, ["a"], []⟩ ∧
    saveDockedAppList ⟨some ⟨[], 0, 0⟩, [], []⟩ ["b"] =
      some ⟨some ⟨["b"], 1, 1⟩, ["b"], []⟩ ∧
    init (some ⟨["a", "a"], 2, 3⟩) ⟨none, true, fun _ => false, [], 0⟩ =
      some (⟨some ⟨["a"], 3, 4⟩, ["a"], []⟩, ⟨none, true, fun _ => false, [], 0⟩) :=
  ⟨C1_write_iff_discipline.1 _ _ rfl,
   C1_write_iff_discipline.2.1 _ ⟨[], 0, 0⟩ _ rfl (by decide),
   C1_write_iff_discipline.2.2 ⟨["a", "a"], 2, 3⟩ _ rfl⟩

/-- Counterexample to C1 as stated: at startup the persisted list ["a"]
is already deduplicated, and the cached list after init equals it (and
equals a dock state holding ["a"], order-sensitively), yet the backend
write counter went from 0 to 1: the startup sync writes even when nothing
differs. -/
theorem C1_startup_write_counterexample :
    init (some ⟨["a"], 0, 0⟩) ⟨none, true, fun _ => false, [], 0⟩ =
      some (⟨some ⟨["a"], 1, 1⟩, ["a"], []⟩, ⟨none, true, fun _ => false, [], 0⟩) ∧
    strSliceEqual ["a"] ["a"] = true :=
  ⟨init_legacyNone ⟨["a"], 0, 0⟩ ⟨none, true, fun _ => false, [], 0⟩ rfl, rfl⟩

/-- C2 (amended): when the legacy config file is absent or unreadable,
handleOldConfigFile treats it as nothing-to-migrate and returns without
error and without touching any state — in particular the MigrationFlag is
NOT set to true. -/
theorem C2_missing_legacy :
    ∀ (m : DockedAppManager) (w : World), w.legacy = none →
      handleOldConfigFile m w = some (m, w) :=
  handle_none

/-- Witness for C2: a concrete manager and a world with no legacy file
pass through migration unchanged. -/
theorem C2_missing_legacy_witness :
    handleOldConfigFile ⟨some ⟨["x"], 0, 0⟩, ["x"], []⟩
        ⟨none, true, fun _ => false, [], 0⟩ =
      some (⟨some ⟨["x"], 0, 0⟩, ["x"], []⟩, ⟨none, true, fun _ => false, [], 0⟩) :=
  C2_missing_legacy _ _ rfl

/-- Counterexample to C2 as stated: after a migration run on a missing
legacy file, the persisted MigrationFlag is not true — the code returns
before writing anything, so the flag (which lives inside the legacy file)
is never set. -/
theorem C2_flag_not_set_counterexample :
    (handleOldConfigFile ⟨some ⟨[], 0, 0⟩, [], []⟩
        ⟨none, true, fun _ => false, [], 0⟩).map
      (fun p => legacyFlagTrue p.2) = some false :=
  rfl

/-- C3 (amended): if the MigrationFlag read from the legacy store is
true, migration returns immediately with every store untouched; running
migration twice always yields the same persisted list as running it once.
(The second run skips all further legacy reads only when the first run
managed to write the flag back.) -/
theorem C3_migration_idempotent :
    (∀ (m : DockedAppManager) (w : World) (conf : LegacyConf),
      w.legacy = some conf → conf.inited = some true →
      handleOldConfigFile m w = some (m, w)) ∧
    (∀ (m : DockedAppManager) (w : World) (m1 : DockedAppManager) (w1 : World),
      handleOldConfigFile m w = some (m1, w1) →
      ∃ m2 w2, handleOldConfigFile m1 w1 = some (m2, w2) ∧
        persistedList m2 = persistedList m1) :=
  ⟨handle_flag, handle_twice⟩

/-- Witness for C3: with the flag already true, a concrete run is a
no-op, and a second run keeps the same persisted list. -/
theorem C3_migration_idempotent_witness :
    handleOldConfigFile ⟨some ⟨["y"], 1, 1⟩, ["y"], []⟩
        ⟨some ⟨some true, some ["z"], fun _ => "", fun _ => "", fun _ => "", true⟩,
          true, fun _ => true, [], 0⟩ =
      some (⟨some ⟨["y"], 1, 1⟩, ["y"], []⟩,
        ⟨some ⟨some true, some ["z"], fun _ => "", fun _ => "", fun _ => "", true⟩,
          true, fun _ => true, [], 0⟩) ∧
    (∃ m2 w2, handleOldConfigFile ⟨some ⟨["y"], 1, 1⟩, ["y"], []⟩
        ⟨some ⟨some true, some ["z"], fun _ => "", fun _ => "", fun _ => "", true⟩,
          true, fun _ => true, [], 0⟩ = some (m2, w2) ∧
      persistedList m2 = persistedList ⟨some ⟨["y"], 1, 1⟩, ["y"], []⟩) :=
  ⟨C3_migration_idempotent.1 _ _ _ rfl rfl,
   C3_migration_idempotent.2 _ _ _ _ (C3_migration_idempotent.1 _ _ _ rfl rfl)⟩

/-- Counterexample to C3 as stated: when the legacy file cannot be
written back, the flag is never persisted, so the second migration run
reads Position again (the read counter reaches 2) instead of performing
no legacy-store read beyond checking the flag. -/
theorem C3_reread_counterexample :
    (handleOldConfigFile ⟨some ⟨[], 0, 0⟩, [], []⟩
        ⟨some ⟨some false, some ["a"], fun _ => "", fun _ => "", fun _ => "", true⟩,
          false, fun _ => true, [], 0⟩).bind
      (fun p => (handleOldConfigFile p.1 p.2).map
        (fun q => (p.2.posReads, q.2.posReads))) = some (1, 2) :=
  rfl

/-- C4: uniqStrSlice keeps each id exactly once in first-occurrence
order (no duplicates, same members, a sublist of the input, and the head
always survives while its later copies are dropped); every successful
init leaves a duplicate-free cached list equal to the persisted one, a
load from a clean store caches and persists exactly the deduplicated
stored sequence, and a migration run persists exactly the deduplicated
legacy Position sequence. -/
theorem C4_dedup :
    (∀ xs : List String, (uniqStrSlice xs).Nodup) ∧
    (∀ (a : String) (xs : List String), a ∈ uniqStrSlice xs ↔ a ∈ xs) ∧
    (∀ (a : String) (xs : List String), a ∈ xs → (uniqStrSlice xs).count a = 1) ∧
    (∀ xs : List String, (uniqStrSlice xs).Sublist xs) ∧
    (∀ (x : String) (xs : List String),
      uniqStrSlice (x :: xs) = x :: uniqStrSlice (xs.filter (fun y => y != x))) ∧
    (∀ (s : GioSettings) (w : World) (m' : DockedAppManager) (w' : World),
      init (some s) w = some (m', w') →
      m'.dockedAppList.Nodup ∧ persistedList m' = m'.dockedAppList) ∧
    (∀ (s : GioSettings) (w : World), w.legacy = none →
      (init (some s) w).map (fun p => (p.1.dockedAppList, persistedList p.1)) =
        some (uniqStrSlice s.dockedApps, uniqStrSlice s.dockedApps)) ∧
    (∀ (m : DockedAppManager) (w : World) (conf : LegacyConf)
      (raw : List String) (s : GioSettings),
      w.legacy = some conf → ¬ conf.inited = some true →
      conf.position = some raw → m.settings = some s →
      (handleOldConfigFile m w).map (fun p => persistedList p.1) =
        some (uniqStrSlice raw)) :=
  ⟨uniqStrSlice_nodup, mem_uniqStrSlice, uniqStrSlice_count, uniqStrSlice_sublist,
   uniqStrSlice_cons, init_sound,
   fun s w hl => by rw [init_legacyNone s w hl]; rfl,
   fun m w conf raw s hl hf hp hs => by rw [handle_run m w conf raw s hl hf hp hs]; rfl⟩

/-- Witness for C4: a duplicated input keeps one copy of each id, both
through a plain load and through a legacy migration. -/
theorem C4_dedup_witness :
    (uniqStrSlice ["a", "b", "a", "b"]).count "a" = 1 ∧
    (init (some ⟨["c", "c", "d"], 0, 0⟩) ⟨none, true, fun _ => false, [], 0⟩).map
        (fun p => (p.1.dockedAppList, persistedList p.1)) =
      some (["c", "d"], ["c", "d"]) ∧
    (handleOldConfigFile ⟨some ⟨[], 0, 0⟩, [], []⟩
        ⟨some ⟨none, some ["e", "e", "f"], fun _ => "", fun _ => "", fun _ => "", true⟩,
          true, fun _ => true, [], 0⟩).map
      (fun p => persistedList p.1) = some ["e", "f"] :=
  ⟨C4_dedup.2.2.1 "a" _ (by decide),
   C4_dedup.2.2.2.2.2.2.1 _ _ rfl,
   C4_dedup.2.2.2.2.2.2.2 _ _
     ⟨none, some ["e", "e", "f"], fun _ => "", fun _ => "", fun _ => "", true⟩
     ["e", "e", "f"] ⟨[], 0, 0⟩ rfl (by decide) rfl rfl⟩

/-- C5: whenever RequestDock or RequestUndock returns false, the manager
is unchanged — same cached dockedAppList, same persisted settings
sequence and counters, and no event emitted. -/
theorem C5_failure_isolation :
    (∀ (m : DockedAppManager) (att : DockAttempt) (id title icon cmd : String)
      (m' : DockedAppManager),
      RequestDock m att id title icon cmd = some (m', false) → m' = m) ∧
    (∀ (m : DockedAppManager) (ids : List String) (id : String)
      (m' : DockedAppManager),
      RequestUndock m ids id = some (m', false) → m' = m) := by
  constructor
  · intro m att id title icon cmd m' h
    unfold RequestDock at h
    by_cases ha : att.accepted = true
    · rw [if_pos ha] at h
      unfold dockAppEntry at h
      cases he : att.entry.appInfo with
      | none =>
        rw [he] at h
        have hm : m = m' := by simpa using h
        exact hm.symm
      | some appId =>
        rw [he] at h
        cases hsv : saveDockedAppList m att.listAfter with
        | none => rw [hsv] at h; simp at h
        | some m1 => rw [hsv] at h; simp at h
    · rw [if_neg ha] at h
      have hm : m = m' := by simpa using h
      exact hm.symm
  · intro m ids id m' h
    unfold RequestUndock undockEntryByAppId at h
    by_cases hi : isStrInSlice id ids = true
    · rw [if_pos hi] at h
      unfold undockAppEntry at h
      cases hsv : saveDockedAppList m (ids.filter (fun x => x != id)) with
      | none => rw [hsv] at h; simp at h
      | some m1 => rw [hsv] at h; simp at h
    · rw [if_neg hi] at h
      have hm : m = m' := by simpa using h
      exact hm.symm

/-- Witness for C5: a rejected dock request and an undock of an id that
is not docked both leave concrete managers exactly as they were. -/
theorem C5_failure_isolation_witness :
    (⟨none, [], []⟩ : DockedAppManager) = ⟨none, [], []⟩ ∧
    (⟨some ⟨[], 0, 0⟩, [], []⟩ : DockedAppManager) = ⟨some ⟨[], 0, 0⟩, [], []⟩ :=
  ⟨C5_failure_isolation.1 ⟨none, [], []⟩ ⟨false, ⟨none⟩, []⟩ "a" "" "" "" _ rfl,
   C5_failure_isolation.2 ⟨some ⟨[], 0, 0⟩, [], []⟩ [] "a" _ rfl⟩

/-- C6: undocking an id that is not currently docked fails with false and
emits nothing, and a successful RequestUndock emits exactly one Undocked
event for that id. -/
theorem C6_undock_not_docked :
    (∀ (m : DockedAppManager) (ids : List String) (id : String),
      id ∉ ids → RequestUndock m ids id = some (m, false)) ∧
    (∀ (m m' : DockedAppManager) (ids : List String) (id : String),
      RequestUndock m ids id = some (m', true) →
      m'.emitted = m.emitted ++ [("Undocked", id)]) := by
  constructor
  · intro m ids id hid
    unfold RequestUndock undockEntryByAppId
    rw [if_neg (isStrInSlice_ne_true id ids hid)]
  · intro m m' ids id h
    unfold RequestUndock undockEntryByAppId at h
    by_cases hi : isStrInSlice id ids = true
    · rw [if_pos hi] at h
      unfold undockAppEntry at h
      cases hsv : saveDockedAppList m (ids.filter (fun x => x != id)) with
      | none => rw [hsv] at h; simp at h
      | some m1 =>
        rw [hsv] at h
        have hm : emitSignal m1 "Undocked" id = m' := by simpa using h
        have he := saveDockedAppList_emitted m m1 _ hsv
        rw [← hm]
        simp [emitSignal, he]
    · rw [if_neg hi] at h
      simp at h

/-- Witness for C6: undocking an id not among the live docked ids fails
without effect, and a successful undock appends one Undocked event. -/
theorem C6_undock_not_docked_witness :
    RequestUndock ⟨some ⟨["a"], 0, 0⟩, ["a"], []⟩ [] "b" =
      some (⟨some ⟨["a"], 0, 0⟩, ["a"], []⟩, false) ∧
    (⟨some ⟨[], 1, 1⟩, [], [("Undocked", "a")]⟩ : DockedAppManager).emitted =
      (⟨some ⟨["a"], 0, 0⟩, ["a"], []⟩ : DockedAppManager).emitted ++ [("Undocked", "a")] :=
  ⟨C6_undock_not_docked.1 _ [] "b" (by decide),
   C6_undock_not_docked.2 ⟨some ⟨["a"], 0, 0⟩, ["a"], []⟩ _ ["a"] "a" rfl⟩

/-- C7: IsDocked is a pure membership query — it equals isStrInSlice on
the cached dockedAppList alone (settings and event trace are irrelevant
and untouched), and it answers true exactly when the id is in the cached
list. -/
theorem C7_isdocked_pure :
    ∀ (st : Option GioSettings) (l : List String) (ev : List (String × String))
      (id : String),
      IsDocked ⟨st, l, ev⟩ id = isStrInSlice id l ∧
      (IsDocked ⟨st, l, ev⟩ id = true ↔ id ∈ l) :=
  fun _ l _ id => ⟨rfl, isStrInSlice_iff id l⟩

/-- C8: with no settings backend, construction succeeds with an empty
list (DockedAppList empty, IsDocked false), but a subsequent
state-changing dock or undock dereferences the nil settings handle inside
saveAppList — modelled as none — instead of completing without crashing:
the claim holds for construction and queries and fails for mutations. -/
theorem C8_nil_settings_crash :
    init none ⟨none, true, fun _ => false, [], 0⟩ =
      some (⟨none, [], []⟩, ⟨none, true, fun _ => false, [], 0⟩) ∧
    DockedAppList ⟨none, [], []⟩ = [] ∧
    IsDocked ⟨none, [], []⟩ "a" = false ∧
    dockAppEntry ⟨none, [], []⟩ ["a"] ⟨some "a"⟩ = none ∧
    undockAppEntry ⟨none, [], []⟩ ["a"] "a" = none :=
  ⟨rfl, rfl, rfl, rfl, rfl⟩

/-- C10: the deprecated aliases are exact shims — Dock and the misspelled
ReqeustDock agree with RequestDock on every input (result, state change
and events alike), and Undock agrees with RequestUndock. -/
theorem C10_alias_equivalence :
    (∀ (m : DockedAppManager) (att : DockAttempt) (id title icon cmd : String),
      Dock m att id title icon cmd = RequestDock m att id title icon cmd) ∧
    (∀ (m : DockedAppManager) (att : DockAttempt) (id title icon cmd : String),
      ReqeustDock m att id title icon cmd = RequestDock m att id title icon cmd) ∧
    (∀ (m : DockedAppManager) (ids : List String) (id : String),
      Undock m ids id = RequestUndock m ids id) :=
  ⟨fun _ _ _ _ _ _ => rfl, fun _ _ _ _ _ _ => rfl, fun _ _ _ => rfl⟩

end Dock

namespace SystemInfo

/-- C9 (amended): the probes are best-effort — GetVersion returns the
empty string and GetMemoryCap returns 0 whether the input file is absent
or unreadable, and GetCpuInfo returns the empty string when the file is
unreadable but the string Unknown (not the empty string) when the file is
absent. -/
theorem C9_best_effort :
    GetVersion FileState.absent = "" ∧
    GetVersion FileState.unreadable = "" ∧
    GetCpuInfo FileState.unreadable = "" ∧
    GetCpuInfo FileState.absent = "Unknown" ∧
    GetMemoryCap FileState.absent = 0 ∧
    GetMemoryCap FileState.unreadable = 0 :=
  ⟨rfl, rfl, rfl, rfl, rfl, rfl⟩

/-- Counterexample to C9 as stated: GetCpuInfo on an absent /proc/cpuinfo
returns the string Unknown, not the empty string. -/
theorem C9_cpuinfo_counterexample : ¬ GetCpuInfo FileState.absent = "" := by
  decide

end SystemInfo
